import Mathlib

/-!
Verification of the expense-tracker core logic (summary aggregation, cache,
transfer, carrier-account flag, auth gate, partial update) against a shallow
embedding of the TypeScript source.

Conventions of the embedding:
* JS `number` amounts are modelled as `Int` (the source only adds, negates and
  takes absolute values, so exact integer arithmetic models the intent).
* JS objects used as string-keyed records (`Record<string, number>`) are
  modelled as association lists with first-insertion order and in-place update,
  matching JS object key semantics.
* JS `Map` is likewise modelled as an association list with overwrite-on-set.
* Dates travel as ISO strings exactly as in the source.
-/

/-- A ledger transaction as produced by `getTransactions` in `src/lib/notion.ts`.
In the store the `account` field holds the resolved account relation. -/
structure Tx where
  name : String
  category : String
  date : String
  amount : Int
  account : String
  note : String
deriving Repr, DecidableEq

/-- The category-exclusion test of `getSummary` (`src/lib/notion.ts` line 208):
transfers (轉帳), advance payments (代墊) and advance repayments (代墊還款)
are skipped entirely. -/
def isExcluded (c : String) : Bool :=
  c == "轉帳" || c == "代墊" || c == "代墊還款"

/-- `m[k] = (m[k] || 0) + v` on a JS object modelled as an association list:
update the (unique) occurrence of the key in place if present, else append. -/
def bump : List (String × Int) → String → Int → List (String × Int)
  | [], k, v => [(k, v)]
  | p :: ps, k, v => if p.1 == k then (p.1, p.2 + v) :: ps else p :: bump ps k v

/-- The mutable accumulator of the `for` loop in `getSummary`. -/
structure SummaryAcc where
  totalIncome : Int
  totalExpense : Int
  byCategory : List (String × Int)
  byCategoryExpense : List (String × Int)
  byCategoryIncome : List (String × Int)
deriving Repr, DecidableEq

/-- One iteration of the `for (const tx of transactions)` loop of `getSummary`
(`src/lib/notion.ts` lines 207-232). -/
def summaryStep (acc : SummaryAcc) (tx : Tx) : SummaryAcc :=
  if isExcluded tx.category then acc
  else
    let acc1 :=
      if 0 < tx.amount then
        { acc with
            totalIncome := acc.totalIncome + tx.amount,
            byCategoryIncome :=
              if tx.category ≠ "" then bump acc.byCategoryIncome tx.category tx.amount
              else acc.byCategoryIncome }
      else
        { acc with
            totalExpense := acc.totalExpense + |tx.amount|,
            byCategoryExpense :=
              if tx.category ≠ "" then bump acc.byCategoryExpense tx.category |tx.amount|
              else acc.byCategoryExpense }
    if tx.category ≠ "" then
      { acc1 with byCategory := bump acc1.byCategory tx.category |tx.amount| }
    else acc1

/-- The summary record returned by `getSummary`. -/
structure Summary where
  totalIncome : Int
  totalExpense : Int
  balance : Int
  byCategory : List (String × Int)
  byCategoryExpense : List (String × Int)
  byCategoryIncome : List (String × Int)
deriving Repr, DecidableEq

/-- The aggregation part of `getSummary` (`src/lib/notion.ts` lines 202-241):
fold the fetched transactions and return totals, breakdowns and
`balance = totalIncome - totalExpense`. -/
def summarizeTransactions (txs : List Tx) : Summary :=
  let a := txs.foldl summaryStep ⟨0, 0, [], [], []⟩
  ⟨a.totalIncome, a.totalExpense, a.totalIncome - a.totalExpense,
    a.byCategory, a.byCategoryExpense, a.byCategoryIncome⟩

-- Accumulator lemmas for the fold.

lemma summaryStep_totalIncome (acc : SummaryAcc) (tx : Tx) :
    (summaryStep acc tx).totalIncome =
      acc.totalIncome +
        (if !isExcluded tx.category && decide (0 < tx.amount) then tx.amount else 0) := by
  simp only [summaryStep]
  split_ifs <;> simp_all
  all_goals omega

lemma summaryStep_totalExpense (acc : SummaryAcc) (tx : Tx) :
    (summaryStep acc tx).totalExpense =
      acc.totalExpense +
        (if !isExcluded tx.category && decide (tx.amount ≤ 0) then |tx.amount| else 0) := by
  simp only [summaryStep]
  split_ifs <;> simp_all
  all_goals omega

lemma foldl_summaryStep_totalIncome (txs : List Tx) (acc : SummaryAcc) :
    (txs.foldl summaryStep acc).totalIncome =
      acc.totalIncome +
        (((txs.filter fun t => !isExcluded t.category && decide (0 < t.amount)).map
          (·.amount)).sum) := by
  induction txs generalizing acc with
  | nil => simp
  | cons t ts ih =>
    by_cases h : (!isExcluded t.category && decide (0 < t.amount)) = true
    · simp [List.foldl_cons, ih, summaryStep_totalIncome, List.filter_cons, h]
      try ring
    · have h' : (!isExcluded t.category && decide (0 < t.amount)) = false :=
        Bool.eq_false_iff.mpr h
      simp [List.foldl_cons, ih, summaryStep_totalIncome, List.filter_cons, h']
      try ring

lemma foldl_summaryStep_totalExpense (txs : List Tx) (acc : SummaryAcc) :
    (txs.foldl summaryStep acc).totalExpense =
      acc.totalExpense +
        (((txs.filter fun t => !isExcluded t.category && decide (t.amount ≤ 0)).map
          (fun t => |t.amount|)).sum) := by
  induction txs generalizing acc with
  | nil => simp
  | cons t ts ih =>
    by_cases h : (!isExcluded t.category && decide (t.amount ≤ 0)) = true
    · simp [List.foldl_cons, ih, summaryStep_totalExpense, List.filter_cons, h]
      try ring
    · have h' : (!isExcluded t.category && decide (t.amount ≤ 0)) = false :=
        Bool.eq_false_iff.mpr h
      simp [List.foldl_cons, ih, summaryStep_totalExpense, List.filter_cons, h']
      try ring

lemma summaryStep_excluded (acc : SummaryAcc) (tx : Tx)
    (h : isExcluded tx.category = true) : summaryStep acc tx = acc := by
  simp [summaryStep, h]

/-- C1: for every list of fetched entries, `totalIncome` is the sum of amounts
of non-excluded entries with positive amount, `totalExpense` is the sum of
absolute amounts of non-excluded entries with amount ≤ 0 (zero counted on the
expense side), excluded entries contribute to neither totals nor breakdown
maps, and `balance = totalIncome - totalExpense`. -/
theorem C1_summary_totals (txs : List Tx) :
    (summarizeTransactions txs).totalIncome =
      (((txs.filter fun t => !isExcluded t.category && decide (0 < t.amount)).map
        (·.amount)).sum) ∧
    (summarizeTransactions txs).totalExpense =
      (((txs.filter fun t => !isExcluded t.category && decide (t.amount ≤ 0)).map
        (fun t => |t.amount|)).sum) ∧
    (∀ l1 l2 : List Tx, ∀ t : Tx, isExcluded t.category = true →
      summarizeTransactions (l1 ++ t :: l2) = summarizeTransactions (l1 ++ l2)) ∧
    (summarizeTransactions txs).balance =
      (summarizeTransactions txs).totalIncome - (summarizeTransactions txs).totalExpense := by
  refine ⟨?_, ?_, ?_, ?_⟩
  · simpa using foldl_summaryStep_totalIncome txs ⟨0, 0, [], [], []⟩
  · simpa using foldl_summaryStep_totalExpense txs ⟨0, 0, [], [], []⟩
  · intro l1 l2 t ht
    unfold summarizeTransactions
    rw [List.foldl_append, List.foldl_append, List.foldl_cons, summaryStep_excluded _ _ ht]
  · rfl

-- Association-list lemmas for the breakdown maps.

lemma lookup_mem {m : List (String × Int)} {k : String} {v : Int}
    (h : m.lookup k = some v) : (k, v) ∈ m := by
  induction m with
  | nil => simp [List.lookup] at h
  | cons p ps ih =>
    rcases p with ⟨k', v'⟩
    rw [List.lookup] at h
    by_cases hk : k == k'
    · have : k = k' := by simpa using hk
      simp [hk] at h
      subst this
      subst h
      exact List.mem_cons_self _ _
    · simp [hk] at h
      exact List.mem_cons_of_mem _ (ih h)

lemma bump_pos {m : List (String × Int)} {k : String} {v : Int}
    (hm : ∀ p ∈ m, 0 < p.2) (hv : 0 < v) : ∀ p ∈ bump m k v, 0 < p.2 := by
  induction m with
  | nil =>
    intro p hp
    simp [bump] at hp
    subst hp
    exact hv
  | cons q ps ih =>
    intro p hp
    rw [bump] at hp
    have hq := hm q (List.mem_cons_self _ _)
    have hps : ∀ r ∈ ps, 0 < r.2 := fun r hr => hm r (List.mem_cons_of_mem _ hr)
    split_ifs at hp with hb
    · rcases List.mem_cons.mp hp with h1 | h1
      · subst h1
        show 0 < q.2 + v
        omega
      · exact hps p h1
    · rcases List.mem_cons.mp hp with h1 | h1
      · subst h1
        exact hq
      · exact ih hps p h1

lemma lookup_bump_ne {k k' : String} (h : k' ≠ k) (v : Int) :
    ∀ m : List (String × Int), (bump m k v).lookup k' = m.lookup k' := by
  have hkk : (k' == k) = false := by simpa using h
  intro m
  induction m with
  | nil => simp [bump, List.lookup, hkk]
  | cons q ps ih =>
    rcases q with ⟨qk, qv⟩
    rw [bump]
    by_cases hb : (qk == k) = true
    · have hqk : qk = k := by simpa using hb
      subst hqk
      simp [hb, List.lookup, hkk]
    · have hb' : (qk == k) = false := Bool.eq_false_iff.mpr hb
      rcases Bool.eq_false_or_eq_true (k' == qk) with hk2 | hk2 <;>
        simp [hb', List.lookup, hk2, ih]

-- Projections of one loop iteration onto the two breakdown maps.

lemma summaryStep_byCategoryIncome (acc : SummaryAcc) (tx : Tx) :
    (summaryStep acc tx).byCategoryIncome =
      if !isExcluded tx.category && decide (0 < tx.amount) && !(tx.category == "") then
        bump acc.byCategoryIncome tx.category tx.amount
      else acc.byCategoryIncome := by
  simp only [summaryStep]
  split_ifs <;> simp_all
  all_goals omega

lemma summaryStep_byCategoryExpense (acc : SummaryAcc) (tx : Tx) :
    (summaryStep acc tx).byCategoryExpense =
      if !isExcluded tx.category && decide (tx.amount ≤ 0) && !(tx.category == "") then
        bump acc.byCategoryExpense tx.category |tx.amount|
      else acc.byCategoryExpense := by
  simp only [summaryStep]
  split_ifs <;> simp_all
  all_goals omega

lemma foldl_byCategoryIncome_pos (txs : List Tx) (acc : SummaryAcc)
    (hInc : ∀ p ∈ acc.byCategoryIncome, 0 < p.2) :
    ∀ p ∈ (txs.foldl summaryStep acc).byCategoryIncome, 0 < p.2 := by
  induction txs generalizing acc with
  | nil => exact hInc
  | cons t ts ih =>
    rw [List.foldl_cons]
    apply ih
    rw [summaryStep_byCategoryIncome]
    split_ifs with h
    · have hpos : 0 < t.amount := by
        simp only [Bool.and_eq_true, Bool.not_eq_true', decide_eq_true_eq] at h
        exact h.1.2
      exact bump_pos hInc hpos
    · exact hInc

lemma foldl_byCategoryExpense_pos (txs : List Tx) (acc : SummaryAcc)
    (hz : ∀ tx ∈ txs, isExcluded tx.category = false → tx.amount ≠ 0)
    (hExp : ∀ p ∈ acc.byCategoryExpense, 0 < p.2) :
    ∀ p ∈ (txs.foldl summaryStep acc).byCategoryExpense, 0 < p.2 := by
  induction txs generalizing acc with
  | nil => exact hExp
  | cons t ts ih =>
    rw [List.foldl_cons]
    apply ih _ (fun tx htx => hz tx (List.mem_cons_of_mem _ htx))
    rw [summaryStep_byCategoryExpense]
    split_ifs with h
    · simp only [Bool.and_eq_true, Bool.not_eq_true', decide_eq_true_eq] at h
      have hne : t.amount ≠ 0 := hz t (List.mem_cons_self _ _) h.1.1
      exact bump_pos hExp (abs_pos.mpr hne)
    · exact hExp

lemma foldl_lookup_maps_none (txs : List Tx) (acc : SummaryAcc) (k : String)
    (hk : ∀ tx ∈ txs, tx.category ≠ k)
    (he : acc.byCategoryExpense.lookup k = none)
    (hi : acc.byCategoryIncome.lookup k = none) :
    (txs.foldl summaryStep acc).byCategoryExpense.lookup k = none ∧
    (txs.foldl summaryStep acc).byCategoryIncome.lookup k = none := by
  induction txs generalizing acc with
  | nil => exact ⟨he, hi⟩
  | cons t ts ih =>
    rw [List.foldl_cons]
    refine ih _ (fun tx htx => hk tx (List.mem_cons_of_mem _ htx)) ?_ ?_
    · rw [summaryStep_byCategoryExpense]
      split_ifs with h
      · rw [lookup_bump_ne (Ne.symm (hk t (List.mem_cons_self _ _))) _ _]
        exact he
      · exact he
    · rw [summaryStep_byCategoryIncome]
      split_ifs with h
      · rw [lookup_bump_ne (Ne.symm (hk t (List.mem_cons_self _ _))) _ _]
        exact hi
      · exact hi

/-- C4 fails on the code as stated: a single entry of amount exactly 0 with
category "food" puts the key "food" into `byCategoryExpense` with value 0,
so the breakdown map does contain a key with zero value. -/
theorem C4_counterexample :
    (summarizeTransactions
      [⟨"zero", "food", "2024-03-05", 0, "Cash", ""⟩]).byCategoryExpense.lookup "food"
      = some 0 := by
  decide

/-- C4 (amended): if no non-excluded entry of the period has amount exactly 0,
then neither breakdown map contains a key with zero value; and any category
not carried by any entry of the period is absent from both maps. The only
change forced by the counterexample is the zero-amount proviso: a zero-amount
entry inserts its category into `byCategoryExpense` with value 0. -/
theorem C4_breakdown_maps (txs : List Tx) (k : String)
    (hz : ∀ tx ∈ txs, isExcluded tx.category = false → tx.amount ≠ 0) :
    (summarizeTransactions txs).byCategoryExpense.lookup k ≠ some 0 ∧
    (summarizeTransactions txs).byCategoryIncome.lookup k ≠ some 0 ∧
    ((∀ tx ∈ txs, tx.category ≠ k) →
      (summarizeTransactions txs).byCategoryExpense.lookup k = none ∧
      (summarizeTransactions txs).byCategoryIncome.lookup k = none) := by
  have hproj :
      (summarizeTransactions txs).byCategoryExpense =
        (txs.foldl summaryStep ⟨0, 0, [], [], []⟩).byCategoryExpense := rfl
  have hproj' :
      (summarizeTransactions txs).byCategoryIncome =
        (txs.foldl summaryStep ⟨0, 0, [], [], []⟩).byCategoryIncome := rfl
  have hExp := foldl_byCategoryExpense_pos txs ⟨0, 0, [], [], []⟩ hz (by simp)
  have hInc := foldl_byCategoryIncome_pos txs ⟨0, 0, [], [], []⟩ (by simp)
  refine ⟨?_, ?_, ?_⟩
  · intro hsome
    exact absurd (hExp _ (lookup_mem (hproj ▸ hsome))) (lt_irrefl 0)
  · intro hsome
    exact absurd (hInc _ (lookup_mem (hproj' ▸ hsome))) (lt_irrefl 0)
  · intro hk
    have := foldl_lookup_maps_none txs ⟨0, 0, [], [], []⟩ k hk rfl rfl
    exact ⟨hproj ▸ this.1, hproj' ▸ this.2⟩

theorem C4_breakdown_maps_witness :
    (∀ tx ∈ [(⟨"lunch", "food", "2024-03-05", -120, "Cash", ""⟩ : Tx)],
        isExcluded tx.category = false → tx.amount ≠ 0) ∧
    ((summarizeTransactions
        [⟨"lunch", "food", "2024-03-05", -120, "Cash", ""⟩]).byCategoryExpense.lookup "salary"
        ≠ some 0 ∧
      (summarizeTransactions
        [⟨"lunch", "food", "2024-03-05", -120, "Cash", ""⟩]).byCategoryIncome.lookup "salary"
        ≠ some 0 ∧
      ((∀ tx ∈ [(⟨"lunch", "food", "2024-03-05", -120, "Cash", ""⟩ : Tx)],
          tx.category ≠ "salary") →
        (summarizeTransactions
          [⟨"lunch", "food", "2024-03-05", -120, "Cash", ""⟩]).byCategoryExpense.lookup "salary"
          = none ∧
        (summarizeTransactions
          [⟨"lunch", "food", "2024-03-05", -120, "Cash", ""⟩]).byCategoryIncome.lookup "salary"
          = none)) :=
  ⟨by decide, C4_breakdown_maps _ "salary" (by decide)⟩

/-! The in-process response cache (`src/lib/cache.ts`). -/

/-- A cache entry stored by `MemoryCache`: payload plus creation timestamp
(milliseconds, modelled as `Nat`). -/
structure CacheEntry (V : Type) where
  data : V
  timestamp : Nat
deriving Repr, DecidableEq

/-- The `Map` behind `MemoryCache`, modelled as an association list kept in
insertion order with unique keys. -/
abbrev MemoryCacheState (V : Type) := List (String × CacheEntry V)

/-- `Map.set`-style overwrite: replace the entry for the key in place if
present, else append. -/
def cacheSetEntry {V : Type} : MemoryCacheState V → String → CacheEntry V →
    MemoryCacheState V
  | [], k, e => [(k, e)]
  | p :: ps, k, e => if p.1 == k then (k, e) :: ps else p :: cacheSetEntry ps k e

/-- `MemoryCache.set(key, data)`: store the payload with the current time. -/
def cacheSet {V : Type} (c : MemoryCacheState V) (key : String) (v : V) (now : Nat) :
    MemoryCacheState V :=
  cacheSetEntry c key ⟨v, now⟩

/-- `MemoryCache.get(key, ttl)`: `none` if the key is missing; if the entry is
older than `ttl` it is deleted (lazy expiration) and `none` is returned; the
default `ttl` is `Infinity`, modelled as `Option.none`, for which the age test
`Date.now() - entry.timestamp > ttl` never fires. Returns the read value and
the (possibly shrunk) cache. -/
def cacheGet {V : Type} (c : MemoryCacheState V) (key : String) (now : Nat)
    (ttl : Option Nat) : Option V × MemoryCacheState V :=
  match c.lookup key with
  | none => (none, c)
  | some e =>
    match ttl with
    | none => (some e.data, c)
    | some t =>
      if now - e.timestamp > t then (none, c.filter (fun p => !(p.1 == key)))
      else (some e.data, c)

/-- `MemoryCache.delete(key)`. -/
def cacheDelete {V : Type} (c : MemoryCacheState V) (key : String) :
    MemoryCacheState V :=
  c.filter (fun p => !(p.1 == key))

/-- `MemoryCache.clear()`. -/
def cacheClear {V : Type} : MemoryCacheState V := []

/-- The characters that the JS `.` metacharacter (without the `s` flag) does
NOT match: the line terminators. -/
def jsDotOk (c : Char) : Bool :=
  !(c == '\n' || c == '\r' || c == '\u2028' || c == '\u2029')

/-- One atom of the regex that `deletePattern` builds with
`'^' + pattern.replace(/\x2a/g, '.*') + '$'`: a character matched literally,
the `.` metacharacter, or the `.*` sequence substituted for a `*` of the
pattern. -/
inductive RegexAtom where
  | lit (c : Char)
  | dot
  | dotStar
deriving Repr, DecidableEq

/-- The translation `pattern.replace(/\x2a/g, '.*')` read as a regex: each `*`
of the pattern becomes a `.*` atom, and a `.` keeps its regex meaning. The
source leaves every other regex metacharacter active as well; atoms for those
(`+`, `?`, brackets, classes, alternation, escapes) are outside this model, so
the translation is faithful exactly for patterns containing no regex
metacharacter besides `*` and `.` — the theorems below stay inside that
fragment. -/
def regexOfPattern : List Char → List RegexAtom
  | [] => []
  | c :: cs =>
    (if c == '*' then RegexAtom.dotStar
      else if c == '.' then RegexAtom.dot
      else RegexAtom.lit c) :: regexOfPattern cs

/-- Anchored matching of an atom sequence, as `regex.test(key)` decides it for
the `^...$`-anchored translation: a literal consumes its own character, `.`
consumes any single non-line-terminator, `.*` consumes any (possibly empty)
run of non-line-terminator characters. -/
def regexAccepts : List RegexAtom → List Char → Bool
  | [], s => s.isEmpty
  | .lit c :: rest, s =>
    match s with
    | [] => false
    | c' :: s' => c == c' && regexAccepts rest s'
  | .dot :: rest, s =>
    match s with
    | [] => false
    | c' :: s' => jsDotOk c' && regexAccepts rest s'
  | .dotStar :: rest, s =>
    (List.range (s.length + 1)).any fun i =>
      (s.take i).all jsDotOk && regexAccepts rest (s.drop i)

/-- `MemoryCache.deletePattern(pattern)` (`src/lib/cache.ts` lines 56-63):
build `new RegExp('^' + pattern.replace(/\x2a/g, '.*') + '$')` and drop every
entry whose key the regex accepts. -/
def cacheDeletePattern {V : Type} (c : MemoryCacheState V) (pattern : String) :
    MemoryCacheState V :=
  c.filter (fun p => !(regexAccepts (regexOfPattern pattern.data) p.1.data))

/-- Modelled from the claim's words, for comparison with the code: anchored
matching in which `*` matches any substring and every other pattern character
stands for itself. -/
def globSpec : List Char → List Char → Bool
  | [], s => s.isEmpty
  | c :: p, s =>
    if c == '*' then
      (List.range (s.length + 1)).any fun i => globSpec p (s.drop i)
    else
      match s with
      | [] => false
      | c' :: s' => c == c' && globSpec p s'

/-- The regex metacharacters (besides the translated `*`) that `deletePattern`
leaves active inside the regex it builds. -/
def isRegexMeta (c : Char) : Bool :=
  c == '.' || c == '+' || c == '?' || c == '(' || c == ')' || c == '[' ||
  c == ']' || c == '\x7b' || c == '\x7d' || c == '|' || c == '\\' ||
  c == '^' || c == '$'

lemma lookup_cacheSetEntry {V : Type} (c : MemoryCacheState V) (k : String)
    (e : CacheEntry V) : (cacheSetEntry c k e).lookup k = some e := by
  induction c with
  | nil => simp [cacheSetEntry, List.lookup]
  | cons p ps ih =>
    rw [cacheSetEntry]
    by_cases hb : (p.1 == k) = true
    · simp [hb, List.lookup]
    · have hb' : (p.1 == k) = false := Bool.eq_false_iff.mpr hb
      have hkp : (k == p.1) = false := by
        have : ¬ p.1 = k := by simpa using hb
        simpa using fun h => this h.symm
      simp [hb', List.lookup, hkp, ih]

lemma lookup_filter_key {V : Type} (q : String → Bool) (c : MemoryCacheState V)
    (k : String) :
    (c.filter (fun p => q p.1)).lookup k = if q k then c.lookup k else none := by
  induction c with
  | nil => simp [List.lookup]
  | cons p ps ih =>
    rcases p with ⟨pk, pe⟩
    by_cases hk : (k == pk) = true
    · have hkk : k = pk := by simpa using hk
      subst hkk
      by_cases hq : q k = true
      · simp [List.filter_cons, hq, List.lookup, ih]
      · have hq' : q k = false := Bool.eq_false_iff.mpr hq
        simp [List.filter_cons, hq', List.lookup, ih]
    · have hk' : (k == pk) = false := Bool.eq_false_iff.mpr hk
      by_cases hq : q pk = true
      · simp [List.filter_cons, hq, List.lookup, hk', ih]
      · have hq' : q pk = false := Bool.eq_false_iff.mpr hq
        simp [List.filter_cons, hq', List.lookup, hk', ih]

/-- C5: `set(k, v)` then `get(k)` at the default (unbounded) TTL returns `v` at
any later read time, however much time has elapsed; `delete(k)` then `get(k)`
returns absent at any TTL. -/
theorem C5_cache_roundtrip {V : Type} (c : MemoryCacheState V) (k : String)
    (v : V) (now now' : Nat) (ttl : Option Nat) :
    (cacheGet (cacheSet c k v now) k now' none).1 = some v ∧
    (cacheGet (cacheDelete c k) k now' ttl).1 = none := by
  constructor
  · rw [cacheGet, cacheSet, lookup_cacheSetEntry]
  · have hnone : (cacheDelete c k).lookup k = none := by
      have := lookup_filter_key (fun s => !(s == k)) c k
      simpa [cacheDelete] using this
    rw [cacheGet, hnone]

lemma list_any_congr {α : Type} {l : List α} {p q : α → Bool}
    (h : ∀ a ∈ l, p a = q a) : l.any p = l.any q := by
  induction l with
  | nil => rfl
  | cons a as ih =>
    rw [List.any_cons, List.any_cons, h a (List.mem_cons_self _ _),
      ih (fun b hb => h b (List.mem_cons_of_mem _ hb))]

lemma globSpec_nil (s : List Char) : globSpec [] s = s.isEmpty := rfl

lemma globSpec_cons (c : Char) (p : List Char) (s : List Char) :
    globSpec (c :: p) s =
      if c == '*' then
        (List.range (s.length + 1)).any fun i => globSpec p (s.drop i)
      else
        match s with
        | [] => false
        | c' :: s' => c == c' && globSpec p s' := by
  rw [globSpec.eq_def]

lemma regexAccepts_eq_globSpec (p : List Char) :
    ∀ s : List Char, (∀ ch ∈ p, isRegexMeta ch = false) →
      (∀ ch ∈ s, jsDotOk ch = true) →
      regexAccepts (regexOfPattern p) s = globSpec p s := by
  induction p with
  | nil =>
    intro s hp hs
    rfl
  | cons c p' ih =>
    intro s hp hs
    have hp' : ∀ ch ∈ p', isRegexMeta ch = false :=
      fun ch h => hp ch (List.mem_cons_of_mem _ h)
    have hcmeta := hp c (List.mem_cons_self _ _)
    by_cases hstar : c = '*'
    · subst hstar
      rw [regexOfPattern, globSpec_cons]
      simp only [beq_self_eq_true, if_true]
      refine list_any_congr fun i _ => ?_
      have htake : ((s.take i).all jsDotOk) = true := by
        rw [List.all_eq_true]
        intro ch hch
        exact hs ch (List.take_subset i s hch)
      rw [htake, Bool.true_and,
        ih (s.drop i) hp' (fun ch hch => hs ch (List.drop_subset i s hch))]
    · have hdot : ¬ c = '.' := by
        intro h
        subst h
        simp [isRegexMeta] at hcmeta
      have hcb : (c == '*') = false := by simpa using hstar
      have hdb : (c == '.') = false := by simpa using hdot
      rw [regexOfPattern, globSpec_cons]
      simp only [hcb, hdb, Bool.false_eq_true, if_false]
      cases s with
      | nil => rfl
      | cons c' s' =>
        simp only [regexAccepts]
        rw [ih s' hp' (fun ch hch => hs ch (List.mem_cons_of_mem _ hch))]

lemma globSpec_prefix_star (pref : List Char)
    (hstar : ∀ ch ∈ pref, (ch == '*') = false) :
    ∀ s : List Char, globSpec (pref ++ ['*']) s = pref.isPrefixOf s := by
  induction pref with
  | nil =>
    intro s
    have h1 : globSpec (([] : List Char) ++ ['*']) s = true := by
      rw [List.nil_append, globSpec_cons]
      simp only [beq_self_eq_true, if_true]
      rw [List.any_eq_true]
      exact ⟨s.length, List.mem_range.mpr (by omega), by rw [globSpec_nil]; simp⟩
    rw [h1]
    symm
    simp [List.isPrefixOf]
  | cons c pref' ih =>
    intro s
    have hc : (c == '*') = false := hstar c (List.mem_cons_self _ _)
    have ih' := ih (fun ch h => hstar ch (List.mem_cons_of_mem _ h))
    cases s with
    | nil =>
      rw [List.cons_append, globSpec_cons]
      simp [hc, List.isPrefixOf]
    | cons c' s' =>
      rw [List.cons_append, globSpec_cons]
      simp only [hc, Bool.false_eq_true, if_false]
      simp [List.isPrefixOf, ih' s']

lemma lookup_cacheDeletePattern {V : Type} (c : MemoryCacheState V)
    (pattern k : String) :
    (cacheDeletePattern c pattern).lookup k =
      if regexAccepts (regexOfPattern pattern.data) k.data then none
      else c.lookup k := by
  rw [cacheDeletePattern,
    lookup_filter_key
      (fun s => !(regexAccepts (regexOfPattern pattern.data) s.data)) c k]
  by_cases h : regexAccepts (regexOfPattern pattern.data) k.data = true
  · simp [h]
  · have h' := Bool.eq_false_iff.mpr h
    simp [h']

/-- C6 fails on the code as stated, in two ways. The source keeps every regex
metacharacter other than `*` active, so `deletePattern("summary.*")` builds
`/^summary..*$/` and deletes the key `"summaryXfoo"`, although under the
claim's matching — `*` any substring, other characters literal — that key does
not match the pattern. And the substituted `.*` cannot cross a line
terminator, so `deletePattern("summary:*")` leaves the key `"summary:a\nb"`
in place although it has the prefix `"summary:"`. -/
theorem C6_counterexample :
    ((cacheDeletePattern
        [("summaryXfoo", (⟨0, 0⟩ : CacheEntry Nat))] "summary.*").lookup
        "summaryXfoo" = none ∧
      globSpec "summary.*".data "summaryXfoo".data = false) ∧
    ((cacheDeletePattern
        [("summary:a\nb", (⟨0, 0⟩ : CacheEntry Nat))] "summary:*").lookup
        "summary:a\nb" = some ⟨0, 0⟩ ∧
      "summary:".data.isPrefixOf "summary:a\nb".data = true) := by
  decide

/-- C6 (amended): for a pattern containing no regex metacharacter other than
the wildcard `*` itself, and for a key free of line terminators,
`deletePattern` removes exactly the matching keys — anchored at both ends,
`*` matching any substring — and leaves every other key bound to its unchanged
entry; in particular `"summary:*"` matches exactly the keys with prefix
`"summary:"`. The two restrictions are the ones the counterexample forces:
other metacharacters keep their regex meaning, and the substituted `.*` does
not cross a line terminator. -/
theorem C6_deletePattern_glob (V : Type) (c : MemoryCacheState V)
    (pattern k : String)
    (hp : ∀ ch ∈ pattern.data, isRegexMeta ch = false)
    (hk : ∀ ch ∈ k.data, jsDotOk ch = true) :
    ((cacheDeletePattern c pattern).lookup k =
      if globSpec pattern.data k.data then none else c.lookup k) ∧
    globSpec "summary:*".data k.data = "summary:".data.isPrefixOf k.data := by
  constructor
  · rw [lookup_cacheDeletePattern,
      regexAccepts_eq_globSpec pattern.data k.data hp hk]
  · have hsplit : "summary:*".data = "summary:".data ++ ['*'] := by decide
    rw [hsplit, globSpec_prefix_star "summary:".data (by decide) k.data]

theorem C6_deletePattern_glob_witness :
    ((∀ ch ∈ ("summary:*" : String).data, isRegexMeta ch = false) ∧
      (∀ ch ∈ ("summary:2024" : String).data, jsDotOk ch = true)) ∧
    (((cacheDeletePattern
        [("summary:2024", (⟨7, 0⟩ : CacheEntry Nat)), ("accounts", ⟨9, 0⟩)]
        "summary:*").lookup "summary:2024" =
        if globSpec ("summary:*" : String).data ("summary:2024" : String).data
          then none
          else (([("summary:2024", (⟨7, 0⟩ : CacheEntry Nat)),
            ("accounts", ⟨9, 0⟩)] : MemoryCacheState Nat).lookup
              "summary:2024")) ∧
      globSpec ("summary:*" : String).data ("summary:2024" : String).data =
        ("summary:" : String).data.isPrefixOf ("summary:2024" : String).data) :=
  ⟨⟨by decide, by decide⟩,
    C6_deletePattern_glob Nat
      [("summary:2024", ⟨7, 0⟩), ("accounts", ⟨9, 0⟩)] "summary:*"
      "summary:2024" (by decide) (by decide)⟩

/-! The accounts table and the carrier-account flag (`src/lib/notion.ts`). -/

/-- An account row as mapped by `getAccounts` in `src/lib/notion.ts`. -/
structure AccountR where
  id : String
  name : String
  type : String
  initialBalance : Int
  transactionSum : Int
  balance : Int
  isCarrierAccount : Bool
deriving Repr, DecidableEq

/-- One `notion.pages.update` call setting the carrier checkbox (載具帳戶) of
the page with the given id. -/
def storeSetCarrierFlag (accs : List AccountR) (accountId : String) (v : Bool) :
    List AccountR :=
  accs.map fun a => if a.id == accountId then { a with isCarrierAccount := v } else a

/-- `setCarrierAccount` (`src/lib/notion.ts` lines 375-396): snapshot the
account list, clear the checkbox on every account currently flagged, then set
it on the target account. -/
def setCarrierAccount (accountId : String) (accs : List AccountR) :
    List AccountR :=
  let carriers := (accs.filter (fun a => a.isCarrierAccount)).map (fun a => a.id)
  let cleared := carriers.foldl (fun st i => storeSetCarrierFlag st i false) accs
  storeSetCarrierFlag cleared accountId true

lemma foldl_storeSetCarrierFlag_false (ids : List String) (accs : List AccountR) :
    ids.foldl (fun st i => storeSetCarrierFlag st i false) accs =
      accs.map
        (fun a => if a.id ∈ ids then { a with isCarrierAccount := false }
          else a) := by
  induction ids generalizing accs with
  | nil => simp
  | cons i is ih =>
    rw [List.foldl_cons, ih, storeSetCarrierFlag, List.map_map]
    refine List.map_congr_left fun a _ => ?_
    simp only [Function.comp]
    by_cases hai : a.id = i
    · by_cases hcon : a.id ∈ is <;> simp [hai, hcon]
    · by_cases hcon : a.id ∈ is <;> simp [hai, hcon]

lemma mem_cleared_false (accs : List AccountR) :
    ∀ a ∈ (((accs.filter (fun x => x.isCarrierAccount)).map (fun x => x.id)).foldl
        (fun st i => storeSetCarrierFlag st i false) accs),
      a.isCarrierAccount = false := by
  rw [foldl_storeSetCarrierFlag_false]
  intro a ha
  rcases List.mem_map.mp ha with ⟨b, hb, rfl⟩
  by_cases hcon : b.id ∈ (accs.filter (fun x => x.isCarrierAccount)).map (fun x => x.id)
  · simp [hcon]
  · have hflag : b.isCarrierAccount = false := by
      by_contra hf
      have hbt : b.isCarrierAccount = true := by simpa using hf
      exact hcon (List.mem_map_of_mem _ (List.mem_filter.mpr ⟨hb, hbt⟩))
    simp [hcon, hflag]

lemma countP_storeSetCarrierFlag_true (l : List AccountR) (accountId : String)
    (hl : ∀ a ∈ l, a.isCarrierAccount = false) :
    ((storeSetCarrierFlag l accountId true).countP (fun a => a.isCarrierAccount)) =
      l.countP (fun a => a.id == accountId) := by
  induction l with
  | nil => rfl
  | cons a as ih =>
    have ha := hl a (List.mem_cons_self _ _)
    have has : ∀ b ∈ as, b.isCarrierAccount = false :=
      fun b hb => hl b (List.mem_cons_of_mem _ hb)
    rw [storeSetCarrierFlag] at ih
    rw [storeSetCarrierFlag, List.map_cons, List.countP_cons, List.countP_cons, ih has]
    by_cases hid : a.id = accountId <;> simp [hid, ha]

lemma countP_map_preserving_id (accs : List AccountR) (ids : List String)
    (accountId : String) :
    ((accs.map (fun a => if a.id ∈ ids then { a with isCarrierAccount := false }
        else a)).countP (fun a => a.id == accountId)) =
      accs.countP (fun a => a.id == accountId) := by
  induction accs with
  | nil => rfl
  | cons a as ih =>
    rw [List.map_cons, List.countP_cons, List.countP_cons, ih]
    by_cases hcon : a.id ∈ ids <;> simp [hcon]

lemma countP_id_eq_count (l : List AccountR) (accountId : String) :
    l.countP (fun a => a.id == accountId) = (l.map (fun a => a.id)).count accountId := by
  induction l with
  | nil => rfl
  | cons a as ih =>
    by_cases hid : a.id = accountId <;>
      simp [List.map_cons, List.countP_cons, List.count_cons, hid, ih]

/-- C3: after `setCarrierAccount(X)` completes with all store writes applied,
for any starting flag configuration, exactly one account carries
`isCarrierAccount = true`, and it is the account with id `X` (assuming `X`
names one of the accounts and account ids are unique). -/
theorem C3_sole_carrier (accs : List AccountR) (accountId : String)
    (hid : accountId ∈ accs.map (fun a => a.id))
    (hnd : (accs.map (fun a => a.id)).Nodup) :
    ((setCarrierAccount accountId accs).countP (fun a => a.isCarrierAccount)) = 1 ∧
    (∀ a ∈ setCarrierAccount accountId accs, a.isCarrierAccount = true →
      a.id = accountId) := by
  have hcleared := mem_cleared_false accs
  constructor
  · simp only [setCarrierAccount]
    rw [countP_storeSetCarrierFlag_true _ _ hcleared,
      foldl_storeSetCarrierFlag_false, countP_map_preserving_id, countP_id_eq_count]
    exact List.count_eq_one_of_mem hnd hid
  · intro a ha hflag
    simp only [setCarrierAccount] at ha
    rw [storeSetCarrierFlag] at ha
    rcases List.mem_map.mp ha with ⟨b, hb, rfl⟩
    by_cases hbid : b.id = accountId
    · simp [hbid]
    · have hbf := hcleared b hb
      rw [if_neg (by simpa using hbid)] at hflag
      exact absurd hflag (by simp [hbf])

theorem C3_sole_carrier_witness :
    ("a2" ∈ ([⟨"a1", "Cash", "cash", 0, 0, 0, true⟩,
        ⟨"a2", "Bank", "bank", 0, 0, 0, false⟩,
        ⟨"a3", "Card", "card", 0, 0, 0, true⟩] : List AccountR).map (fun a => a.id)) ∧
    ((([⟨"a1", "Cash", "cash", 0, 0, 0, true⟩,
        ⟨"a2", "Bank", "bank", 0, 0, 0, false⟩,
        ⟨"a3", "Card", "card", 0, 0, 0, true⟩] : List AccountR).map (fun a => a.id)).Nodup) ∧
    (((setCarrierAccount "a2" [⟨"a1", "Cash", "cash", 0, 0, 0, true⟩,
        ⟨"a2", "Bank", "bank", 0, 0, 0, false⟩,
        ⟨"a3", "Card", "card", 0, 0, 0, true⟩]).countP (fun a => a.isCarrierAccount)) = 1 ∧
      (∀ a ∈ setCarrierAccount "a2" [⟨"a1", "Cash", "cash", 0, 0, 0, true⟩,
          ⟨"a2", "Bank", "bank", 0, 0, 0, false⟩,
          ⟨"a3", "Card", "card", 0, 0, 0, true⟩],
        a.isCarrierAccount = true → a.id = "a2")) :=
  ⟨by decide, by decide, C3_sole_carrier _ "a2" (by decide) (by decide)⟩

/-! The transfer endpoint (`src/app/api/transfer/route.ts`). -/

/-- The store state visible to the API layer: the account table and the
transactions table. A stored transaction keeps the resolved account page id in
its `account` field (the 帳戶 relation). -/
structure Store where
  accounts : List AccountR
  txs : List Tx
deriving Repr, DecidableEq

/-- `createTransaction` (`src/lib/notion.ts` lines 16-48): resolve the account
name against the account list, throw (`Except.error`, 找不到帳戶) when no
account of that name exists, else insert a row whose 帳戶 relation holds the
resolved account id. -/
def createTransaction (t : Tx) (st : Store) : Except String Store :=
  match st.accounts.find? (fun a => a.name == t.account) with
  | none => Except.error ("找不到帳戶：" ++ t.account)
  | some a => Except.ok { st with txs := st.txs ++ [{ t with account := a.id }] }

/-- The request body of POST `/api/transfer`. -/
structure TransferRequest where
  fromAccount : String
  toAccount : String
  amount : Int
  date : String
deriving Repr, DecidableEq

/-- Outcome of the transfer handler: a 400 validation rejection, a 500 failure
(carrying the store state reached when the throw happened), or 200 with the
new store state. -/
inductive TransferResult where
  | badRequest (error : String)
  | serverError (st : Store)
  | ok (st : Store)
deriving Repr, DecidableEq

/-- POST `/api/transfer` (`src/app/api/transfer/route.ts` lines 13-70):
validate presence (by JS truthiness, so empty strings and amount 0 count as
missing), distinctness and positivity; then create the debit entry on the
source account and the credit entry on the target account, both named and
categorised 轉帳 (transfer). -/
def transferPOST (req : TransferRequest) (st : Store) : TransferResult :=
  if req.fromAccount == "" || req.toAccount == "" || req.amount == 0 ||
      req.date == "" then
    .badRequest "缺少必填欄位：來源帳戶、目標帳戶、金額、日期"
  else if req.fromAccount == req.toAccount then
    .badRequest "來源和目標帳戶不能相同"
  else if req.amount ≤ 0 then
    .badRequest "轉帳金額必須大於 0"
  else
    match createTransaction
        ⟨"轉帳", "轉帳", req.date, -req.amount, req.fromAccount,
          "轉帳至 " ++ req.toAccount⟩ st with
    | .error _ => .serverError st
    | .ok st1 =>
      match createTransaction
          ⟨"轉帳", "轉帳", req.date, req.amount, req.toAccount,
            "來自 " ++ req.fromAccount⟩ st1 with
      | .error _ => .serverError st1
      | .ok st2 => .ok st2

/-- C2: a transfer request with distinct, resolvable accounts, positive amount
and a date succeeds and appends exactly two entries, a debit of `-amount`
carrying the source account id and a credit of `+amount` carrying the target
account id, both with category 轉帳; and a pair of category-轉帳 entries never
changes any computed summary. -/
theorem C2_transfer (req : TransferRequest) (st : Store) (af at' : AccountR)
    (hfrom : req.fromAccount ≠ "") (hto : req.toAccount ≠ "")
    (hne : req.fromAccount ≠ req.toAccount) (hamt : 0 < req.amount)
    (hdate : req.date ≠ "")
    (hf : st.accounts.find? (fun a => a.name == req.fromAccount) = some af)
    (ht : st.accounts.find? (fun a => a.name == req.toAccount) = some at') :
    transferPOST req st =
      .ok { st with txs := st.txs ++
        [⟨"轉帳", "轉帳", req.date, -req.amount, af.id, "轉帳至 " ++ req.toAccount⟩,
         ⟨"轉帳", "轉帳", req.date, req.amount, at'.id, "來自 " ++ req.fromAccount⟩] } ∧
    (∀ l1 l2 : List Tx,
      summarizeTransactions
        (l1 ++ [⟨"轉帳", "轉帳", req.date, -req.amount, af.id,
            "轉帳至 " ++ req.toAccount⟩,
          ⟨"轉帳", "轉帳", req.date, req.amount, at'.id,
            "來自 " ++ req.fromAccount⟩] ++ l2)
        = summarizeTransactions (l1 ++ l2)) := by
  have h0 : req.amount ≠ 0 := by omega
  have hc1 : (req.fromAccount == "" || req.toAccount == "" || req.amount == 0 ||
      req.date == "") = false := by
    simp [hfrom, hto, hdate, h0]
  have hc2 : (req.fromAccount == req.toAccount) = false := by simp [hne]
  have hc3 : ¬ req.amount ≤ 0 := by omega
  constructor
  · rw [transferPOST, if_neg (by rw [hc1]; simp), if_neg (by rw [hc2]; simp),
      if_neg hc3]
    simp only [createTransaction]
    rw [hf]
    simp only []
    rw [ht]
    simp [List.append_assoc]
  · intro l1 l2
    have hx : isExcluded "轉帳" = true := by decide
    unfold summarizeTransactions
    rw [List.foldl_append, List.foldl_append, List.foldl_append, List.foldl_cons,
      List.foldl_cons, List.foldl_nil, summaryStep_excluded _ _ hx,
      summaryStep_excluded _ _ hx]

/-- The account table used to exercise the transfer handler. -/
def demoAccounts : List AccountR :=
  [⟨"a1", "Cash", "cash", 1000, 0, 1000, false⟩,
   ⟨"a2", "Bank", "bank", 0, 0, 0, false⟩]

/-- A store holding the demo accounts and no transactions. -/
def demoStore : Store := ⟨demoAccounts, []⟩

theorem C2_transfer_witness :
    (demoStore.accounts.find? (fun a => a.name == "Cash") =
        some ⟨"a1", "Cash", "cash", 1000, 0, 1000, false⟩ ∧
      demoStore.accounts.find? (fun a => a.name == "Bank") =
        some ⟨"a2", "Bank", "bank", 0, 0, 0, false⟩) ∧
    (transferPOST ⟨"Cash", "Bank", 300, "2024-03-05"⟩ demoStore =
        .ok { demoStore with txs := demoStore.txs ++
          [⟨"轉帳", "轉帳", "2024-03-05", -300, "a1", "轉帳至 Bank"⟩,
           ⟨"轉帳", "轉帳", "2024-03-05", 300, "a2", "來自 Cash"⟩] } ∧
      (∀ l1 l2 : List Tx,
        summarizeTransactions
          (l1 ++ [⟨"轉帳", "轉帳", "2024-03-05", -300, "a1", "轉帳至 Bank"⟩,
            ⟨"轉帳", "轉帳", "2024-03-05", 300, "a2", "來自 Cash"⟩] ++ l2)
          = summarizeTransactions (l1 ++ l2))) :=
  ⟨⟨by decide, by decide⟩,
    C2_transfer ⟨"Cash", "Bank", 300, "2024-03-05"⟩ demoStore
      ⟨"a1", "Cash", "cash", 1000, 0, 1000, false⟩
      ⟨"a2", "Bank", "bank", 0, 0, 0, false⟩
      (by decide) (by decide) (by decide) (by decide) (by decide)
      (by decide) (by decide)⟩

/-! The summary date range (`getSummary`, `src/lib/notion.ts` lines 185-200). -/

/-- `String(n).padStart(2, '0')` for the month number. -/
def pad2 (n : Nat) : String :=
  if n < 10 then "0" ++ toString n else toString n

/-- The Gregorian leap-year rule, the behaviour of the JS `Date` object that
`getSummary` consults through `new Date(year, month, 0).getDate()`. -/
def isLeapYear (y : Nat) : Bool :=
  (y % 4 == 0 && y % 100 != 0) || y % 400 == 0

/-- `new Date(year, month, 0).getDate()` for a 1-based month: the number of
days of that calendar month. -/
def lastDayOfMonth (y m : Nat) : Nat :=
  if m == 2 then (if isLeapYear y then 29 else 28)
  else if m == 4 || m == 6 || m == 9 || m == 11 then 30
  else 31

/-- The `[startDate, endDate]` computation of `getSummary`: a month is used
only when present and nonzero (JS `if (month)` truthiness), giving the first
through the last calendar day of that month; otherwise January 1 through
December 31 of the year. -/
def getSummaryRange (year : Nat) (month : Option Nat) : String × String :=
  match month with
  | some m =>
    if m ≠ 0 then
      (toString year ++ "-" ++ pad2 m ++ "-01",
        toString year ++ "-" ++ pad2 m ++ "-" ++ toString (lastDayOfMonth year m))
    else
      (toString year ++ "-01-01", toString year ++ "-12-31")
  | none => (toString year ++ "-01-01", toString year ++ "-12-31")

/-- The date filter of `getTransactions` when both bounds are given:
`on_or_after startDate` and `on_or_before endDate`, a closed interval on ISO
date strings. -/
def getTransactionsInRange (txs : List Tx) (startDate endDate : String) :
    List Tx :=
  txs.filter (fun t => startDate ≤ t.date && t.date ≤ endDate)

/-- `getSummary(year, month?)`: compute the range, fetch the entries in it,
fold them into a summary. -/
def getSummary (txs : List Tx) (year : Nat) (month : Option Nat) : Summary :=
  let r := getSummaryRange year month
  summarizeTransactions (getTransactionsInRange txs r.1 r.2)

/-- C7: for every year and month 1..12 the aggregator queries the closed range
from the first day of the month to its last calendar day, where
`lastDayOfMonth` follows the Gregorian month lengths (February 2024 has 29
days, February 2023 has 28); with no month given the range is January 1
through December 31; and an entry is fetched iff its date lies within the
closed range. -/
theorem C7_summary_range (year m : Nat) (h1 : 1 ≤ m) (h12 : m ≤ 12) :
    getSummaryRange year (some m) =
      (toString year ++ "-" ++ pad2 m ++ "-01",
        toString year ++ "-" ++ pad2 m ++ "-" ++ toString (lastDayOfMonth year m)) ∧
    getSummaryRange year none =
      (toString year ++ "-01-01", toString year ++ "-12-31") ∧
    (lastDayOfMonth year m =
      if m = 2 then (if isLeapYear year then 29 else 28)
      else if m = 4 ∨ m = 6 ∨ m = 9 ∨ m = 11 then 30 else 31) ∧
    lastDayOfMonth 2024 2 = 29 ∧ lastDayOfMonth 2023 2 = 28 ∧
    (∀ (txs : List Tx) (t : Tx) (s e : String),
      t ∈ getTransactionsInRange txs s e ↔ t ∈ txs ∧ s ≤ t.date ∧ t.date ≤ e) := by
  refine ⟨?_, rfl, ?_, by decide, by decide, ?_⟩
  · have hm : m ≠ 0 := by omega
    simp [getSummaryRange, hm]
  · rw [lastDayOfMonth]
    by_cases h2 : m = 2
    · simp [h2]
    · by_cases h30 : m = 4 ∨ m = 6 ∨ m = 9 ∨ m = 11
      · have hb : (m == 4 || m == 6 || m == 9 || m == 11) = true := by
          rcases h30 with h | h | h | h <;> simp [h]
        simp [h2, hb, h30]
      · have hb : (m == 4 || m == 6 || m == 9 || m == 11) = false := by
          simp only [Bool.or_eq_false_iff, beq_eq_false_iff_ne]
          omega
        simp [h2, hb, h30]
  · intro txs t s e
    simp [getTransactionsInRange, List.mem_filter]

theorem C7_summary_range_witness :
    ((1 : Nat) ≤ 2 ∧ (2 : Nat) ≤ 12) ∧
    (getSummaryRange 2024 (some 2) =
        (toString 2024 ++ "-" ++ pad2 2 ++ "-01",
          toString 2024 ++ "-" ++ pad2 2 ++ "-" ++ toString (lastDayOfMonth 2024 2)) ∧
      getSummaryRange 2024 none =
        (toString 2024 ++ "-01-01", toString 2024 ++ "-12-31") ∧
      (lastDayOfMonth 2024 2 =
        if (2 : Nat) = 2 then (if isLeapYear 2024 then 29 else 28)
        else if (2 : Nat) = 4 ∨ (2 : Nat) = 6 ∨ (2 : Nat) = 9 ∨ (2 : Nat) = 11
          then 30 else 31) ∧
      lastDayOfMonth 2024 2 = 29 ∧ lastDayOfMonth 2023 2 = 28 ∧
      (∀ (txs : List Tx) (t : Tx) (s e : String),
        t ∈ getTransactionsInRange txs s e ↔ t ∈ txs ∧ s ≤ t.date ∧ t.date ≤ e)) :=
  ⟨⟨by decide, by decide⟩, C7_summary_range 2024 2 (by decide) (by decide)⟩

/-! The authentication gate (`src/lib/auth-middleware.ts`). -/

/-- JS `String.prototype.replace` with a plain-string pattern and empty
replacement: delete the first occurrence of the pattern. -/
def replaceFirst (pat : List Char) : List Char → List Char
  | [] => []
  | c :: cs =>
    if pat.isPrefixOf (c :: cs) then (c :: cs).drop pat.length
    else c :: replaceFirst pat cs

/-- `verifyAuthHeader` (`src/lib/auth-middleware.ts` lines 9-28), parametric in
the digest function (`createHash('sha256').update(pin).digest('hex')`): when
the `APP_PIN` environment variable is unset — or empty, both falsy in JS —
verification is skipped and every request passes; otherwise the Authorization
header must be present and its token (the header with the first `"Bearer "`
occurrence removed) must be non-empty and equal to the digest of the PIN. -/
def verifyAuthHeader (hash : String → String) (pin : Option String)
    (authHeader : Option String) : Bool :=
  match pin with
  | none => true
  | some p =>
    if p == "" then true
    else
      match authHeader with
      | none => false
      | some h =>
        let token := String.mk (replaceFirst "Bearer ".data h.data)
        if token == "" then false
        else token == hash p

/-- The observable outcome of GET `/api/accounts`
(`src/app/api/accounts/route.ts` lines 7-30): HTTP status, the `success` field
of the JSON body, and whether the repository (`getAccounts`) was invoked. -/
structure HandlerOutcome where
  status : Nat
  success : Bool
  repoCalled : Bool
deriving Repr, DecidableEq

/-- GET `/api/accounts`: an unauthorized request is answered with
`unauthorizedResponse()` — status 401, `{success:false, error:...}` — before
any repository call; an authorized one calls `getAccounts` and responds 200
`{success:true}`. -/
def accountsGET (hash : String → String) (pin : Option String)
    (authHeader : Option String) : HandlerOutcome :=
  if verifyAuthHeader hash pin authHeader then ⟨200, true, true⟩
  else ⟨401, false, false⟩

/-- C8: with a PIN configured, a request whose Authorization header is missing
or whose bearer token differs from the correct digest is answered 401 with
`success:false`, and no repository operation is invoked. -/
theorem C8_auth_rejects (hash : String → String) (p : String)
    (authHeader : Option String) (hp : p ≠ "")
    (hbad : authHeader = none ∨
      ∃ h, authHeader = some h ∧
        String.mk (replaceFirst "Bearer ".data h.data) ≠ hash p) :
    accountsGET hash (some p) authHeader = ⟨401, false, false⟩ := by
  have hv : verifyAuthHeader hash (some p) authHeader = false := by
    rcases hbad with rfl | ⟨h, rfl, hne⟩
    · simp [verifyAuthHeader, hp]
    · by_cases hemp : String.mk (replaceFirst "Bearer ".data h.data) = ""
      · simp [verifyAuthHeader, hp, hemp]
      · simp [verifyAuthHeader, hp, hemp, hne]
  rw [accountsGET, hv]
  simp

theorem C8_auth_rejects_witness :
    (("1234" : String) ≠ "" ∧
      ((some "Bearer bad" : Option String) = none ∨
        ∃ h, (some "Bearer bad" : Option String) = some h ∧
          String.mk (replaceFirst "Bearer ".data h.data) ≠
            (fun s => s) "1234")) ∧
    accountsGET (fun s => s) (some "1234") (some "Bearer bad") =
      ⟨401, false, false⟩ :=
  ⟨⟨by decide, Or.inr ⟨"Bearer bad", rfl, by decide⟩⟩,
    C8_auth_rejects (fun s => s) "1234" (some "Bearer bad") (by decide)
      (Or.inr ⟨"Bearer bad", rfl, by decide⟩)⟩

/-- C9: with no PIN configured, `verifyAuthHeader` returns true for every
request — whatever the Authorization header holds, including nothing — so the
protected endpoint performs its repository call and reports success: the
authentication gate is disabled. -/
theorem C9_no_pin_disables_auth (hash : String → String)
    (authHeader : Option String) :
    verifyAuthHeader hash none authHeader = true ∧
    accountsGET hash none authHeader = ⟨200, true, true⟩ :=
  ⟨rfl, rfl⟩

/-! Partial update of a transaction (`updateTransaction`, `src/lib/notion.ts`
lines 247-293). -/

/-- The partial-field body of PUT `/api/transactions`: a property is written
only when the field was supplied (`!== undefined`). The `account` field
carries an account name. -/
structure TxPatch where
  name : Option String
  category : Option String
  date : Option String
  amount : Option Int
  account : Option String
  note : Option String
deriving Repr, DecidableEq

/-- `updateTransaction(id, transaction)`: build a Notion property patch holding
exactly the supplied fields — a supplied account name is re-resolved through
`getAccounts` to the id of the account of that name, and the relation is left
untouched when no account matches — and apply it to the stored page, leaving
every other property unchanged. -/
def updateTransaction (accounts : List AccountR) (patch : TxPatch) (old : Tx) :
    Tx :=
  { name := match patch.name with | none => old.name | some v => v,
    category := match patch.category with | none => old.category | some v => v,
    date := match patch.date with | none => old.date | some v => v,
    amount := match patch.amount with | none => old.amount | some v => v,
    account :=
      match patch.account with
      | none => old.account
      | some nm =>
        match accounts.find? (fun a => a.name == nm) with
        | some a => a.id
        | none => old.account,
    note := match patch.note with | none => old.note | some v => v }

/-- C10: `updateTransaction` changes exactly the supplied fields: every field
not supplied keeps its stored value, every supplied scalar field takes the
supplied value, and a supplied account name is re-resolved to the id of the
matching account before being written. -/
theorem C10_update_frame (accounts : List AccountR) (patch : TxPatch)
    (old : Tx) :
    (patch.name = none → (updateTransaction accounts patch old).name = old.name) ∧
    (∀ v, patch.name = some v → (updateTransaction accounts patch old).name = v) ∧
    (patch.category = none →
      (updateTransaction accounts patch old).category = old.category) ∧
    (∀ v, patch.category = some v →
      (updateTransaction accounts patch old).category = v) ∧
    (patch.date = none → (updateTransaction accounts patch old).date = old.date) ∧
    (∀ v, patch.date = some v → (updateTransaction accounts patch old).date = v) ∧
    (patch.amount = none →
      (updateTransaction accounts patch old).amount = old.amount) ∧
    (∀ v, patch.amount = some v →
      (updateTransaction accounts patch old).amount = v) ∧
    (patch.note = none → (updateTransaction accounts patch old).note = old.note) ∧
    (∀ v, patch.note = some v → (updateTransaction accounts patch old).note = v) ∧
    (patch.account = none →
      (updateTransaction accounts patch old).account = old.account) ∧
    (∀ nm a, patch.account = some nm →
      accounts.find? (fun x => x.name == nm) = some a →
      (updateTransaction accounts patch old).account = a.id) := by
  refine ⟨?_, ?_, ?_, ?_, ?_, ?_, ?_, ?_, ?_, ?_, ?_, ?_⟩
  · intro h
    simp [updateTransaction, h]
  · intro v h
    simp [updateTransaction, h]
  · intro h
    simp [updateTransaction, h]
  · intro v h
    simp [updateTransaction, h]
  · intro h
    simp [updateTransaction, h]
  · intro v h
    simp [updateTransaction, h]
  · intro h
    simp [updateTransaction, h]
  · intro v h
    simp [updateTransaction, h]
  · intro h
    simp [updateTransaction, h]
  · intro v h
    simp [updateTransaction, h]
  · intro h
    simp [updateTransaction, h]
  · intro nm a h hf
    simp [updateTransaction, h, hf]

theorem C10_update_frame_witness :
    ((⟨none, some "transport", none, some (-80), some "Bank", none⟩ :
        TxPatch).account = some "Bank" ∧
      demoAccounts.find? (fun x => x.name == "Bank") =
        some ⟨"a2", "Bank", "bank", 0, 0, 0, false⟩) ∧
    ((updateTransaction demoAccounts
        ⟨none, some "transport", none, some (-80), some "Bank", none⟩
        ⟨"lunch", "food", "2024-03-05", -120, "a1", ""⟩).name = "lunch" ∧
      (updateTransaction demoAccounts
        ⟨none, some "transport", none, some (-80), some "Bank", none⟩
        ⟨"lunch", "food", "2024-03-05", -120, "a1", ""⟩).account = "a2") :=
  ⟨⟨rfl, by decide⟩,
    ⟨(C10_update_frame demoAccounts
        ⟨none, some "transport", none, some (-80), some "Bank", none⟩
        ⟨"lunch", "food", "2024-03-05", -120, "a1", ""⟩).1 rfl,
      (C10_update_frame demoAccounts
        ⟨none, some "transport", none, some (-80), some "Bank", none⟩
        ⟨"lunch", "food", "2024-03-05", -120, "a1", ""⟩).2.2.2.2.2.2.2.2.2.2.2
        "Bank" ⟨"a2", "Bank", "bank", 0, 0, 0, false⟩ rfl (by decide)⟩⟩
